import Mathlib

/-!
Verification of the candidate-scoring and confidence-ranking core of the
TikTokDeputy repository.  The Python sources `part2_find_tiktok.py` and
`analyze_tiktok_bio.py` are shallowly embedded below: pure functions become
Lean functions, Python floats become real numbers, Python ints become
integers, and the network lookups of the orchestrator become explicit
oracle parameters.
-/

namespace TikTokDeputy

/-- Embeds `quality_factor` from `calculate_confidence` (part2_find_tiktok.py:99):
`1.0 / (1.0 + np.exp(-(best_score - 60) / 25))`, the logistic sigmoid
centred at 60 with scale 25. -/
noncomputable def quality_factor (best_score : ℝ) : ℝ :=
  1 / (1 + Real.exp (-(best_score - 60) / 25))

/-- Embeds `calculate_confidence` (part2_find_tiktok.py:87-122).  Empty input is
returned unchanged; a single score yields `0.30 + 0.65 * quality`; with two
or more scores the head gets `0.25 + 0.70 * quality * margin_score` and the
loop at lines 117-120 assigns `remaining_mass / (len - 1)` to every other
position, here rendered as `List.replicate`. -/
noncomputable def calculate_confidence (scores : List ℝ) : List ℝ :=
  match scores with
  | [] => []
  | [s] => [0.30 + 0.65 * quality_factor s]
  | s0 :: s1 :: rest =>
    let margin := s0 - s1
    let margin_score := min (margin / 30) 1
    let top_confidence := 0.25 + 0.70 * quality_factor s0 * margin_score
    top_confidence ::
      List.replicate (rest.length + 1) ((1 - top_confidence) / (rest.length + 1))

/-- The docstring of `calculate_confidence` assumes "scores are already
sorted in descending order (highest first)": each element is at most its
predecessor. -/
def SortedDesc (l : List ℝ) : Prop :=
  l.Chain' (fun a b => b ≤ a)

/-- Embeds the `BioAnalysis` dataclass (analyze_tiktok_bio.py:11-22).  Python ints
become `ℤ`. -/
structure BioAnalysis where
  username : String
  bio_text : String
  bio_found : Bool
  mentions_depute : Bool
  mentions_party : Bool
  mentions_region : Bool
  mentions_assemblee : Bool
  party_name : Option String := none
  followers : ℤ := 0
  verified : Bool := false

/-- Embeds the `TikTokCandidate` dataclass (part2_find_tiktok.py:19-27).  The Python
field `exists` is a Lean keyword and is rendered `exists_`. -/
structure TikTokCandidate where
  username : String
  exists_ : Bool
  subscribers : ℤ
  source : List String
  bio_analysis : Option BioAnalysis := none
  raw_score : ℤ := 0
  confidence : ℝ := 0

/-- Embeds `calculate_raw_score` (part2_find_tiktok.py:59-85): `score` starts at 0,
one popularity tier is added by the `if/elif` chain, and when a bio analysis
is present with `bio_found` the keyword and verification bonuses are
added. -/
def calculate_raw_score (candidate : TikTokCandidate) : ℤ :=
  let score : ℤ := 0
  let score := score +
    (if candidate.subscribers ≥ 100000 then 100
     else if candidate.subscribers ≥ 10000 then 50
     else if candidate.subscribers ≥ 1000 then 25
     else if candidate.subscribers ≥ 100 then 5
     else if candidate.subscribers ≥ 1 then 2
     else 0)
  let score := score +
    (match candidate.bio_analysis with
     | some b =>
       if b.bio_found then
         (if b.mentions_depute then 10 else 0) +
         (if b.mentions_assemblee then 5 else 0) +
         (if b.mentions_party then 5 else 0) +
         (if b.verified then 50 else 0)
       else 0
     | none => 0)
  score

/-- The popularity-tier bonus exactly as the spec words it (§4.3): one tier,
evaluated from the highest threshold down. -/
def popularity_tier_bonus (popularity : ℤ) : ℤ :=
  if popularity ≥ 100000 then 100
  else if popularity ≥ 10000 then 50
  else if popularity ≥ 1000 then 25
  else if popularity ≥ 100 then 5
  else if popularity ≥ 1 then 2
  else 0

/-- The text-analysis bonus exactly as the spec words it (§4.3): only when
an analysis is present and found, `+10` role, `+5` institution, `+5`
affiliation, `+50` platform-verified. -/
def text_analysis_bonus (candidate : TikTokCandidate) : ℤ :=
  match candidate.bio_analysis with
  | some b =>
    if b.bio_found then
      (if b.mentions_depute then 10 else 0) +
      (if b.mentions_assemblee then 5 else 0) +
      (if b.mentions_party then 5 else 0) +
      (if b.verified then 50 else 0)
    else 0
  | none => 0

/-- One step of the username-collection loops of `process_deputy`
(part2_find_tiktok.py:130-146): falsy (empty) usernames are skipped, a new
username is appended with the tag of its source list, an already-seen
username accumulates the tag.  The Python insertion-ordered dict
`username_sources` is rendered as an association list. -/
def add_username (m : List (String × List String)) (tag username : String) :
    List (String × List String) :=
  if username = "" then m
  else if m.any (fun p => p.1 = username) then
    m.map (fun p => if p.1 = username then (p.1, p.2 ++ [tag]) else p)
  else m ++ [(username, [tag])]

/-- The merge step of `process_deputy` (part2_find_tiktok.py:128-148): the
three source lists are folded in program order — twitter, websearch,
variant — into the insertion-ordered mapping username → source tags. -/
def merge_usernames (twitter websearch variant : List String) :
    List (String × List String) :=
  let m := twitter.foldl (fun m u => add_username m "twitter" u) []
  let m := websearch.foldl (fun m u => add_username m "websearch" u) m
  let m := variant.foldl (fun m u => add_username m "variant" u) m
  m

/-- The candidate-construction loop of `process_deputy`
(part2_find_tiktok.py:153-176).  The network call `check_tiktok_exists` is
an oracle `check : username → (exists, subscribers)`; nonexistent usernames
are skipped; `analyze_tiktok_bio` (queried only when `subscribers ≥ 1`, with
its exceptions swallowed) is an oracle `bio : username → Option
BioAnalysis`.  `raw_score` and `confidence` keep their dataclass defaults of
zero. -/
def build_candidates (check : String → Bool × ℤ) (bio : String → Option BioAnalysis)
    (unique_usernames : List (String × List String)) : List TikTokCandidate :=
  unique_usernames.filterMap (fun p =>
    let ex := (check p.1).1
    let subscribers := (check p.1).2
    if ex then
      some { username := p.1, exists_ := true, subscribers := subscribers,
             source := p.2,
             bio_analysis := if 1 ≤ subscribers then bio p.1 else none,
             raw_score := 0, confidence := 0 }
    else none)

/-- The selection step of `process_deputy` (part2_find_tiktok.py:178-210):
no candidate → `(None, [])`; no candidate with `subscribers ≥ 1` → the first
candidate, unscored, as best and sole shortlist entry; otherwise score,
stable-sort descending by raw score, distribute confidences positionally,
and return the head and the first three. -/
noncomputable def select_candidates (candidates : List TikTokCandidate) :
    Option TikTokCandidate × List TikTokCandidate :=
  match candidates with
  | [] => (none, [])
  | c0 :: _ =>
    let candidates_with_subs := candidates.filter (fun c => 1 ≤ c.subscribers)
    if candidates_with_subs.isEmpty then (some c0, [c0])
    else
      let scored := candidates_with_subs.map
        (fun c => { c with raw_score := calculate_raw_score c })
      let sorted_candidates := scored.mergeSort (fun a b => b.raw_score ≤ a.raw_score)
      let confidences := calculate_confidence (sorted_candidates.map (fun c => (c.raw_score : ℝ)))
      let final := (sorted_candidates.zip confidences).map
        (fun p => { p.1 with confidence := p.2 })
      (final.head?, final.take 3)

/-- Combining grave accent U+0300. -/
def comb_grave : Char := Char.ofNat 768

/-- Combining acute accent U+0301. -/
def comb_acute : Char := Char.ofNat 769

/-- Combining circumflex accent U+0302. -/
def comb_circumflex : Char := Char.ofNat 770

/-- Combining tilde U+0303. -/
def comb_tilde : Char := Char.ofNat 771

/-- Combining diaeresis U+0308. -/
def comb_diaeresis : Char := Char.ofNat 776

/-- Combining cedilla U+0327. -/
def comb_cedilla : Char := Char.ofNat 807

/-- Modelled from Unicode data: the NFKD decomposition of a single
non-ASCII character, tabulated for the accented Latin letters that occur in
the repository's French-language inputs; characters without a decomposition
map to themselves. -/
def nfkd_decomposition : Char → List Char
  | 'À' => ['A', comb_grave]
  | 'à' => ['a', comb_grave]
  | 'È' => ['E', comb_grave]
  | 'è' => ['e', comb_grave]
  | 'Ì' => ['I', comb_grave]
  | 'ì' => ['i', comb_grave]
  | 'Ò' => ['O', comb_grave]
  | 'ò' => ['o', comb_grave]
  | 'Ù' => ['U', comb_grave]
  | 'ù' => ['u', comb_grave]
  | 'Á' => ['A', comb_acute]
  | 'á' => ['a', comb_acute]
  | 'É' => ['E', comb_acute]
  | 'é' => ['e', comb_acute]
  | 'Í' => ['I', comb_acute]
  | 'í' => ['i', comb_acute]
  | 'Ó' => ['O', comb_acute]
  | 'ó' => ['o', comb_acute]
  | 'Ú' => ['U', comb_acute]
  | 'ú' => ['u', comb_acute]
  | 'Â' => ['A', comb_circumflex]
  | 'â' => ['a', comb_circumflex]
  | 'Ê' => ['E', comb_circumflex]
  | 'ê' => ['e', comb_circumflex]
  | 'Î' => ['I', comb_circumflex]
  | 'î' => ['i', comb_circumflex]
  | 'Ô' => ['O', comb_circumflex]
  | 'ô' => ['o', comb_circumflex]
  | 'Û' => ['U', comb_circumflex]
  | 'û' => ['u', comb_circumflex]
  | 'Ã' => ['A', comb_tilde]
  | 'ã' => ['a', comb_tilde]
  | 'Ñ' => ['N', comb_tilde]
  | 'ñ' => ['n', comb_tilde]
  | 'Õ' => ['O', comb_tilde]
  | 'õ' => ['o', comb_tilde]
  | 'Ä' => ['A', comb_diaeresis]
  | 'ä' => ['a', comb_diaeresis]
  | 'Ë' => ['E', comb_diaeresis]
  | 'ë' => ['e', comb_diaeresis]
  | 'Ï' => ['I', comb_diaeresis]
  | 'ï' => ['i', comb_diaeresis]
  | 'Ö' => ['O', comb_diaeresis]
  | 'ö' => ['o', comb_diaeresis]
  | 'Ü' => ['U', comb_diaeresis]
  | 'ü' => ['u', comb_diaeresis]
  | 'Ÿ' => ['Y', comb_diaeresis]
  | 'ÿ' => ['y', comb_diaeresis]
  | 'Ç' => ['C', comb_cedilla]
  | 'ç' => ['c', comb_cedilla]
  | c => [c]

/-- Modelled from Unicode data: `unicodedata.normalize('NFKD', ·)` at the
character level.  ASCII code points (below 128) have no NFKD decomposition
and are left unchanged; other characters decompose by the table above. -/
def nfkd_char (c : Char) : List Char :=
  if c.toNat < 128 then [c] else nfkd_decomposition c

/-- Applies `unicodedata.normalize('NFKD', text)` to a whole string, rendered over
`List Char`.  (Canonical reordering of combining marks is omitted: the marks
are discarded by the ASCII filter immediately afterwards, so it cannot
affect `normalize_string`.) -/
def nfkd (s : List Char) : List Char := s.flatMap nfkd_char

/-- Embeds `.encode('ascii', 'ignore').decode('ascii')`: keep exactly the code
points below 128. -/
def ascii_ignore (s : List Char) : List Char := s.filter (fun c => c.toNat < 128)

/-- Python `str.lower` on a single character of an ASCII-only string: shift
`A`-`Z` (codes 65-90) up by 32, leave everything else. -/
def lower_ascii (c : Char) : Char :=
  if 65 ≤ c.toNat ∧ c.toNat ≤ 90 then Char.ofNat (c.toNat + 32) else c

/-- The characters Python `str.strip` removes: space, tab, newline,
carriage return, vertical tab, form feed. -/
def is_python_space (c : Char) : Bool :=
  c = ' ' || c = '\t' || c = '\n' || c = '\r' || c.toNat = 11 || c.toNat = 12

/-- Python `str.strip`: drop leading and trailing whitespace. -/
def strip_chars (s : List Char) : List Char :=
  (s.dropWhile is_python_space).rdropWhile is_python_space

/-- Embeds `normalize_string` (analyze_tiktok_bio.py:27-29) over `List Char`:
NFKD-decompose, drop the non-ASCII code points, lowercase, strip. -/
def normalize_string (s : List Char) : List Char :=
  strip_chars ((ascii_ignore (nfkd s)).map lower_ascii)

/-- Does `kw` occur at the very front of `s`? -/
def leading_match : List Char → List Char → Bool
  | [], _ => true
  | _ :: _, [] => false
  | a :: as, b :: bs => a = b && leading_match as bs

/-- Python's `kw in s` substring test: `kw` occurs at the front of some
tail of `s`. -/
def contains_sub : List Char → List Char → Bool
  | [], kw => kw.isEmpty
  | a :: t, kw => leading_match kw (a :: t) || contains_sub t kw

/-- Embeds `depute_keywords` (analyze_tiktok_bio.py:81). -/
def depute_keywords : List (List Char) :=
  ["depute".toList, "deputee".toList, "parlementaire".toList, "elu".toList, "elue".toList]

/-- Embeds `assemblee_keywords` (analyze_tiktok_bio.py:84). -/
def assemblee_keywords : List (List Char) :=
  ["assemblee nationale".toList, "assemblee".toList, "palais bourbon".toList]

/-- The `parties` dict (analyze_tiktok_bio.py:87-98), rendered as an
insertion-ordered list of (label, keywords). -/
def parties : List (String × List (List Char)) :=
  [("LFI", ["lfi".toList, "france insoumise".toList, "la france insoumise".toList,
            "insoumis".toList]),
   ("Renaissance", ["renaissance".toList, "renew".toList, "ensemble".toList]),
   ("RN", ["rn".toList, "rassemblement national".toList, "front national".toList,
           "fn".toList]),
   ("LR", ["lr".toList, "les republicains".toList, "republicains".toList]),
   ("PS", ["ps".toList, "parti socialiste".toList, "socialiste".toList]),
   ("EELV", ["eelv".toList, "ecologiste".toList, "europe ecologie".toList,
             "verts".toList]),
   ("PCF", ["pcf".toList, "communiste".toList, "parti communiste".toList]),
   ("Modem", ["modem".toList, "democrate".toList]),
   ("Horizons", ["horizons".toList]),
   ("UDI", ["udi".toList, "union des democrates".toList])]

/-- Embeds `region_keywords` (analyze_tiktok_bio.py:106-110). -/
def region_keywords : List (List Char) :=
  ["circonscription".toList, "departement".toList, "region".toList, "territoire".toList,
   "seine".toList, "paris".toList, "lyon".toList, "marseille".toList, "nord".toList,
   "sud".toList, "val-de-marne".toList, "essonne".toList, "hauts-de-seine".toList,
   "yvelines".toList]

/-- The dict returned by `analyze_bio_keywords`. -/
structure KeywordTags where
  mentions_depute : Bool
  mentions_party : Bool
  mentions_region : Bool
  mentions_assemblee : Bool
  party_name : Option String

/-- Embeds `analyze_bio_keywords` (analyze_tiktok_bio.py:69-119): an empty (falsy)
text short-circuits to the all-false result; otherwise the text is
normalized once and each flag is a substring test over its keyword list;
the party label is the first dict entry with a matching keyword; the
returned role flag is `mentions_depute or mentions_assemblee`. -/
def analyze_bio_keywords (bio_text : List Char) : KeywordTags :=
  if bio_text.isEmpty then
    { mentions_depute := false, mentions_party := false, mentions_region := false,
      mentions_assemblee := false, party_name := none }
  else
    let bio_normalized := normalize_string bio_text
    let mentions_depute := depute_keywords.any (fun kw => contains_sub bio_normalized kw)
    let mentions_assemblee :=
      assemblee_keywords.any (fun kw => contains_sub bio_normalized kw)
    let detected_party :=
      (parties.find? (fun p => p.2.any (fun kw => contains_sub bio_normalized kw))).map
        (fun p => p.1)
    let mentions_region := region_keywords.any (fun kw => contains_sub bio_normalized kw)
    { mentions_depute := mentions_depute || mentions_assemblee,
      mentions_party := detected_party.isSome,
      mentions_region := mentions_region,
      mentions_assemblee := mentions_assemblee,
      party_name := detected_party }

/-- The sigmoid quality factor is strictly positive. -/
theorem quality_factor_pos (b : ℝ) : 0 < quality_factor b := by
  unfold quality_factor
  positivity

/-- The sigmoid quality factor is strictly below one. -/
theorem quality_factor_lt_one (b : ℝ) : quality_factor b < 1 := by
  unfold quality_factor
  rw [div_lt_one (by positivity)]
  linarith [Real.exp_pos (-(b - 60) / 25)]

/-- Unfolding lemma for the two-or-more-scores branch of
`calculate_confidence`. -/
lemma calculate_confidence_cons_cons (s0 s1 : ℝ) (rest : List ℝ) :
    calculate_confidence (s0 :: s1 :: rest) =
      (0.25 + 0.70 * quality_factor s0 * min ((s0 - s1) / 30) 1) ::
        List.replicate (rest.length + 1)
          ((1 - (0.25 + 0.70 * quality_factor s0 * min ((s0 - s1) / 30) 1)) /
            (rest.length + 1)) := rfl

/-- With at least two scores the confidences sum to exactly one. -/
lemma sum_confidence_cons_cons (s0 s1 : ℝ) (rest : List ℝ) :
    (calculate_confidence (s0 :: s1 :: rest)).sum = 1 := by
  rw [calculate_confidence_cons_cons, List.sum_cons, List.sum_replicate, nsmul_eq_mul]
  have h : ((rest.length : ℝ) + 1) ≠ 0 := by positivity
  push_cast
  field_simp

/-- With a sorted input the top confidence lies in `[0.25, 0.95)`. -/
lemma top_confidence_bounds (s0 s1 : ℝ) (h : s1 ≤ s0) :
    0.25 ≤ 0.25 + 0.70 * quality_factor s0 * min ((s0 - s1) / 30) 1 ∧
      0.25 + 0.70 * quality_factor s0 * min ((s0 - s1) / 30) 1 < 0.95 := by
  have hq0 := quality_factor_pos s0
  have hq1 := quality_factor_lt_one s0
  have hm0 : (0 : ℝ) ≤ min ((s0 - s1) / 30) 1 := le_min (by linarith) (by norm_num)
  have hm1 : min ((s0 - s1) / 30) 1 ≤ 1 := min_le_right _ _
  constructor
  · nlinarith
  · nlinarith

/-- Bounds of the single-candidate branch: the confidence lies strictly
between `0.30` and `0.95`. -/
lemma single_confidence_bounds (s : ℝ) :
    0.30 < 0.30 + 0.65 * quality_factor s ∧ 0.30 + 0.65 * quality_factor s < 0.95 := by
  have hq0 := quality_factor_pos s
  have hq1 := quality_factor_lt_one s
  constructor <;> nlinarith

/-- Every element of the distributor's output lies in `[0, 1]` when the
input is sorted descending. -/
lemma confidence_mem_bounds (scores : List ℝ) (hs : SortedDesc scores) :
    ∀ c ∈ calculate_confidence scores, 0 ≤ c ∧ c ≤ 1 := by
  match scores with
  | [] => intro c hc; simp [calculate_confidence] at hc
  | [s] =>
    intro c hc
    simp only [calculate_confidence, List.mem_singleton] at hc
    subst hc
    obtain ⟨h1, h2⟩ := single_confidence_bounds s
    constructor <;> nlinarith
  | s0 :: s1 :: rest =>
    intro c hc
    have h01 : s1 ≤ s0 := by
      simp only [SortedDesc, List.chain'_cons] at hs
      exact hs.1
    obtain ⟨ht0, ht1⟩ := top_confidence_bounds s0 s1 h01
    rw [calculate_confidence_cons_cons] at hc
    rcases List.mem_cons.mp hc with h | h
    · subst h; constructor <;> nlinarith
    · have hval := List.eq_of_mem_replicate h
      subst hval
      have hden : (1 : ℝ) ≤ (rest.length : ℝ) + 1 := by
        have := Nat.cast_nonneg (α := ℝ) rest.length
        linarith
      constructor
      · apply div_nonneg (by nlinarith) (by linarith)
      · calc (1 - (0.25 + 0.70 * quality_factor s0 * min ((s0 - s1) / 30) 1)) /
              ((rest.length : ℝ) + 1)
            ≤ 1 - (0.25 + 0.70 * quality_factor s0 * min ((s0 - s1) / 30) 1) :=
              div_le_self (by nlinarith) hden
        _ ≤ 1 := by nlinarith

/-- C3: for a score array with at least two elements the distributor returns
`confidence[0] = 0.25 + 0.70 * sigmoid((score0 - 60)/25) * min ((score0 - score1)/30) 1`
and every later position receives the identical value
`(1 - confidence[0]) / (n - 1)` regardless of its own score; in particular
`calculate_confidence [50, 50] = [0.25, 0.75]`.  (Proved for every input of
length at least two, which covers the descending-sorted ones.) -/
theorem claim_C3 :
    (∀ (s0 s1 : ℝ) (rest : List ℝ),
      calculate_confidence (s0 :: s1 :: rest) =
        (0.25 + 0.70 * (1 / (1 + Real.exp (-(s0 - 60) / 25))) * min ((s0 - s1) / 30) 1) ::
          List.replicate (rest.length + 1)
            ((1 - (0.25 + 0.70 * (1 / (1 + Real.exp (-(s0 - 60) / 25))) *
              min ((s0 - s1) / 30) 1)) / (rest.length + 1))) ∧
    calculate_confidence [50, 50] = [0.25, 0.75] := by
  constructor
  · intro s0 s1 rest
    rw [calculate_confidence_cons_cons]
    rfl
  · rw [show ((50 : ℝ) :: [50]) = 50 :: 50 :: [] from rfl, calculate_confidence_cons_cons]
    norm_num

/-- C10: with at least two scores the confidences sum to exactly `1`
(strictly stronger than the specified "sum ≤ 1").  Proved for every input of
length at least two, which covers the descending-sorted ones. -/
theorem claim_C10 (s0 s1 : ℝ) (rest : List ℝ) :
    (calculate_confidence (s0 :: s1 :: rest)).sum = 1 :=
  sum_confidence_cons_cons s0 s1 rest

/-- C10 witness at the concrete input `[50, 49]`. -/
theorem claim_C10_witness : (calculate_confidence [50, 49]).sum = 1 :=
  claim_C10 50 49 []

/-- C1 counterexample: `[50, 49]` is sorted descending with two distinct
values, yet the distributor puts strictly less confidence on position 0 than
on position 1 (`confidence[0] ≈ 0.259 < 0.741 ≈ confidence[1]`), refuting
"confidence[0] ≥ confidence[1]" as stated. -/
theorem claim_C1_counterexample :
    SortedDesc [(50 : ℝ), 49] ∧ (50 : ℝ) ≠ 49 ∧
      ¬ ((calculate_confidence [50, 49]).getD 1 0 ≤ (calculate_confidence [50, 49]).getD 0 0) := by
  refine ⟨?_, by norm_num, ?_⟩
  · simp only [SortedDesc, List.chain'_cons, List.chain'_singleton, and_true]
    norm_num
  · rw [show ((50 : ℝ) :: [49]) = 50 :: 49 :: [] from rfl, calculate_confidence_cons_cons]
    have hq1 := quality_factor_lt_one 50
    have hq0 := quality_factor_pos 50
    have hmin : min (((50 : ℝ) - 49) / 30) 1 = 1 / 30 := by
      rw [min_eq_left (by norm_num)]; norm_num
    simp only [List.length_nil, List.replicate, List.getD_cons_zero, List.getD_cons_succ]
    rw [hmin]
    push_cast
    intro h
    nlinarith

/-- C1 amended: the ordering `confidence[0] ≥ confidence[1]` does hold for
every descending-sorted score array with at least **four** elements (there
the top confidence is at least `0.25` while each remaining share is at most
`0.75 / 3 = 0.25`); with two or three elements a small margin makes it fail,
as the counterexample shows. -/
theorem claim_C1_amended (s0 s1 s2 s3 : ℝ) (rest : List ℝ)
    (hs : SortedDesc (s0 :: s1 :: s2 :: s3 :: rest)) :
    (calculate_confidence (s0 :: s1 :: s2 :: s3 :: rest)).getD 1 0 ≤
      (calculate_confidence (s0 :: s1 :: s2 :: s3 :: rest)).getD 0 0 := by
  have h01 : s1 ≤ s0 := by
    simp only [SortedDesc, List.chain'_cons] at hs
    exact hs.1
  obtain ⟨ht0, ht1⟩ := top_confidence_bounds s0 s1 h01
  rw [calculate_confidence_cons_cons]
  set t := 0.25 + 0.70 * quality_factor s0 * min ((s0 - s1) / 30) 1 with hT
  clear hT
  clear_value t
  simp only [List.length_cons, List.replicate, List.getD_cons_zero, List.getD_cons_succ]
  push_cast
  rw [div_le_iff₀ (by positivity)]
  nlinarith [mul_nonneg (le_trans (by norm_num : (0 : ℝ) ≤ 0.25) ht0)
    (Nat.cast_nonneg (α := ℝ) rest.length)]

/-- C1 amended witness at the concrete sorted input `[100, 50, 10, 5]`. -/
theorem claim_C1_witness :
    (calculate_confidence [100, 50, 10, 5]).getD 1 0 ≤
      (calculate_confidence [100, 50, 10, 5]).getD 0 0 := by
  refine claim_C1_amended 100 50 10 5 [] ?_
  simp only [SortedDesc, List.chain'_cons, List.chain'_singleton, and_true]
  norm_num

/-- C5: the distributor's output has the same length as the input; for
sorted-descending input every value lies in `[0, 1]` and the values sum to
at most `1`; the single-candidate confidence is
`0.30 + 0.65 * sigmoid((s - 60)/25)` and lies in `(0.30, 0.95)`; a single
raw score of `60` yields exactly `0.625`. -/
theorem claim_C5 :
    (∀ scores : List ℝ, (calculate_confidence scores).length = scores.length) ∧
    (∀ scores : List ℝ, SortedDesc scores →
      ∀ c ∈ calculate_confidence scores, 0 ≤ c ∧ c ≤ 1) ∧
    (∀ scores : List ℝ, SortedDesc scores → (calculate_confidence scores).sum ≤ 1) ∧
    (∀ s : ℝ,
      calculate_confidence [s] = [0.30 + 0.65 * (1 / (1 + Real.exp (-(s - 60) / 25)))] ∧
      0.30 < 0.30 + 0.65 * quality_factor s ∧ 0.30 + 0.65 * quality_factor s < 0.95) ∧
    calculate_confidence [60] = [0.625] := by
  refine ⟨?_, confidence_mem_bounds, ?_, ?_, ?_⟩
  · intro scores
    match scores with
    | [] => rfl
    | [s] => rfl
    | s0 :: s1 :: rest =>
      rw [calculate_confidence_cons_cons]
      simp
  · intro scores hs
    match scores with
    | [] => simp [calculate_confidence]
    | [s] =>
      obtain ⟨-, h2⟩ := single_confidence_bounds s
      simp only [calculate_confidence, List.sum_cons, List.sum_nil, add_zero]
      linarith
    | s0 :: s1 :: rest =>
      rw [sum_confidence_cons_cons]
  · intro s
    exact ⟨rfl, single_confidence_bounds s⟩
  · show [0.30 + 0.65 * quality_factor 60] = [0.625]
    have : quality_factor 60 = 1 / 2 := by
      unfold quality_factor
      norm_num
    rw [this]
    norm_num

/-- C5 witness at the concrete sorted input `[50, 49]` and the single score
`60`. -/
theorem claim_C5_witness :
    (calculate_confidence [50, 49]).length = 2 ∧
    (∀ c ∈ calculate_confidence [50, 49], 0 ≤ c ∧ c ≤ 1) ∧
    (calculate_confidence [50, 49]).sum ≤ 1 := by
  have hs : SortedDesc [(50 : ℝ), 49] := by
    simp only [SortedDesc, List.chain'_cons, List.chain'_singleton, and_true]
    norm_num
  exact ⟨claim_C5.1 [50, 49], claim_C5.2.1 [50, 49] hs, claim_C5.2.2.1 [50, 49] hs⟩

/-- C4 counterexample: `[100, 50]` and `[100, 60]` share best score `100`
and have margins `50 > 40`, but both margins are clamped at `30`, so the two
top confidences are **equal** — `confidence[0]` is not strictly larger for
the larger margin, refuting strict monotonicity as stated. -/
theorem claim_C4_counterexample :
    SortedDesc [(100 : ℝ), 50] ∧ SortedDesc [(100 : ℝ), 60] ∧
      (100 : ℝ) - 50 > (100 : ℝ) - 60 ∧
      ¬ ((calculate_confidence [100, 60]).getD 0 0 <
          (calculate_confidence [100, 50]).getD 0 0) := by
  refine ⟨?_, ?_, by norm_num, ?_⟩
  · simp only [SortedDesc, List.chain'_cons, List.chain'_singleton, and_true]; norm_num
  · simp only [SortedDesc, List.chain'_cons, List.chain'_singleton, and_true]; norm_num
  · rw [show ((100 : ℝ) :: [50]) = 100 :: 50 :: [] from rfl,
      show ((100 : ℝ) :: [60]) = 100 :: 60 :: [] from rfl,
      calculate_confidence_cons_cons, calculate_confidence_cons_cons]
    have h1 : min (((100 : ℝ) - 50) / 30) 1 = 1 := by rw [min_eq_right]; norm_num
    have h2 : min (((100 : ℝ) - 60) / 30) 1 = 1 := by rw [min_eq_right]; norm_num
    rw [h1, h2]
    simp

/-- C4 amended: `confidence[0]` is strictly increasing in the margin as long
as the smaller margin is below the 30-point clamp; once both margins reach
30 the top confidence is constant (counterexample above). -/
theorem claim_C4_amended (s0 s1 s1' : ℝ) (rest rest' : List ℝ)
    (hmargin : s0 - s1 < s0 - s1') (hclamp : s0 - s1 < 30) :
    (calculate_confidence (s0 :: s1 :: rest)).getD 0 0 <
      (calculate_confidence (s0 :: s1' :: rest')).getD 0 0 := by
  rw [calculate_confidence_cons_cons, calculate_confidence_cons_cons]
  simp only [List.getD_cons_zero]
  have hq0 := quality_factor_pos s0
  have hmin1 : min ((s0 - s1) / 30) 1 = (s0 - s1) / 30 := by
    rw [min_eq_left]; linarith
  have hmin2 : (s0 - s1) / 30 < min ((s0 - s1') / 30) 1 := by
    rcases le_or_lt 1 ((s0 - s1') / 30) with h | h
    · rw [min_eq_right h]; linarith
    · rw [min_eq_left (le_of_lt h)]; linarith
  rw [hmin1]
  nlinarith

/-- C4 amended witness: margins `10 < 20`, smaller margin below 30, strict
increase at the concrete inputs `[100, 90]` vs `[100, 80]`. -/
theorem claim_C4_witness :
    (calculate_confidence [100, 90]).getD 0 0 < (calculate_confidence [100, 80]).getD 0 0 :=
  claim_C4_amended 100 90 80 [] [] (by norm_num) (by norm_num)

/-- The popularity-tier bonus is non-negative. -/
lemma popularity_tier_bonus_nonneg (p : ℤ) : 0 ≤ popularity_tier_bonus p := by
  unfold popularity_tier_bonus
  split_ifs <;> norm_num

/-- The text-analysis bonus is non-negative. -/
lemma text_analysis_bonus_nonneg (c : TikTokCandidate) : 0 ≤ text_analysis_bonus c := by
  unfold text_analysis_bonus
  rcases c.bio_analysis with _ | b
  · norm_num
  · dsimp only
    split_ifs <;> norm_num

/-- C6: the scorer returns exactly one popularity-tier bonus plus the
text-analysis bonuses (role +10, institution +5, affiliation +5,
verified +50, all gated on a present and found analysis), and the result is
a non-negative integer. -/
theorem claim_C6 (c : TikTokCandidate) :
    calculate_raw_score c = popularity_tier_bonus c.subscribers + text_analysis_bonus c ∧
      0 ≤ calculate_raw_score c := by
  have h : calculate_raw_score c = popularity_tier_bonus c.subscribers + text_analysis_bonus c := by
    unfold calculate_raw_score popularity_tier_bonus text_analysis_bonus
    ring
  refine ⟨h, ?_⟩
  rw [h]
  have h1 := popularity_tier_bonus_nonneg c.subscribers
  have h2 := text_analysis_bonus_nonneg c
  omega

/-- C2 counterexample: the merge step keys on the **raw** username — no
case normalization.  Merging `"a"` from the twitter list with `"A"` from
the websearch list yields two candidates, each with a single provenance
tag, not one candidate with the union `{twitter, websearch}`. -/
theorem claim_C2_counterexample :
    merge_usernames ["a"] ["A"] [] = [("a", ["twitter"]), ("A", ["websearch"])] ∧
      (merge_usernames ["a"] ["A"] []).length ≠ 1 := by
  constructor <;> decide

/-- C2 amended: deduplication is by **exact** identifier: the same
identifier arriving from two source lists yields a single candidate whose
provenance accumulates both source tags, but identifiers differing only in
case (such as `"a"` and `"A"`) remain two separate candidates. -/
theorem claim_C2_amended :
    (∀ u : String, u ≠ "" →
      merge_usernames [u] [u] [] = [(u, ["twitter", "websearch"])]) ∧
    merge_usernames ["a"] ["A"] [] = [("a", ["twitter"]), ("A", ["websearch"])] := by
  constructor
  · intro u hu
    simp [merge_usernames, add_username, hu]
  · decide

/-- C2 amended witness at the concrete identifier `"a"` coming from both
the twitter and the websearch list. -/
theorem claim_C2_witness :
    merge_usernames ["a"] ["a"] [] = [("a", ["twitter", "websearch"])] :=
  claim_C2_amended.1 "a" (by decide)

/-- Every candidate built by the construction loop still carries the
dataclass defaults `raw_score = 0` and `confidence = 0`. -/
lemma build_candidates_defaults (check : String → Bool × ℤ) (bio : String → Option BioAnalysis)
    (l : List (String × List String)) :
    ∀ c ∈ build_candidates check bio l, c.raw_score = 0 ∧ c.confidence = 0 := by
  intro c hc
  unfold build_candidates at hc
  obtain ⟨p, -, hp⟩ := List.mem_filterMap.mp hc
  dsimp only at hp
  split at hp
  · obtain rfl := Option.some_injective _ hp
    exact ⟨rfl, rfl⟩
  · exact absurd hp (by simp)

/-- C7: when every built candidate lacks a positive subscriber count, the
selection step still returns the **first** candidate in merge order as best
and as sole shortlist entry, and that candidate's raw score and confidence
are still the untouched zeros — the degenerate pool is not an error. -/
theorem claim_C7 (check : String → Bool × ℤ) (bio : String → Option BioAnalysis)
    (merged : List (String × List String)) (c0 : TikTokCandidate) (cs : List TikTokCandidate)
    (hbuild : build_candidates check bio merged = c0 :: cs)
    (hzero : ∀ c ∈ c0 :: cs, ¬ (1 ≤ c.subscribers)) :
    select_candidates (build_candidates check bio merged) = (some c0, [c0]) ∧
      c0.raw_score = 0 ∧ c0.confidence = 0 := by
  have hdefaults := build_candidates_defaults check bio merged c0 (hbuild ▸ List.mem_cons_self c0 cs)
  refine ⟨?_, hdefaults⟩
  rw [hbuild]
  unfold select_candidates
  have hfilter : (c0 :: cs).filter (fun c => 1 ≤ c.subscribers) = [] := by
    rw [List.filter_eq_nil_iff]
    intro c hc
    simpa using hzero c hc
  simp only [hfilter, List.isEmpty_nil, if_true]

/-- C7 witness: a single merged username that exists with zero subscribers
is selected as best with shortlist `[itself]` and zero score and
confidence. -/
theorem claim_C7_witness :
    select_candidates
        (build_candidates (fun _ => (true, 0)) (fun _ => none) [("a", ["twitter"])]) =
      (some { username := "a", exists_ := true, subscribers := 0, source := ["twitter"],
              bio_analysis := none, raw_score := 0, confidence := 0 },
       [{ username := "a", exists_ := true, subscribers := 0, source := ["twitter"],
          bio_analysis := none, raw_score := 0, confidence := 0 }]) ∧
      (0 : ℤ) = 0 ∧ (0 : ℝ) = 0 := by
  have h := claim_C7 (fun _ => (true, 0)) (fun _ => none) [("a", ["twitter"])]
    { username := "a", exists_ := true, subscribers := 0, source := ["twitter"],
      bio_analysis := none, raw_score := 0, confidence := 0 } []
    rfl (by intro c hc; simp only [List.mem_singleton] at hc; subst hc; norm_num)
  exact ⟨h.1, rfl, rfl⟩

/-- C8: whenever the classifier sets the institution flag
(`mentions_assemblee`) it also sets the role flag (`mentions_depute`),
because the returned role flag is the disjunction
`mentions_depute or mentions_assemblee`. -/
theorem claim_C8 (t : List Char) :
    (analyze_bio_keywords t).mentions_assemblee = true →
    (analyze_bio_keywords t).mentions_depute = true := by
  unfold analyze_bio_keywords
  split
  · intro h
    simp at h
  · intro h
    dsimp only at h ⊢
    rw [h, Bool.or_true]

/-- C8 witness at the concrete bio text `"assemblee"`. -/
theorem claim_C8_witness :
    (analyze_bio_keywords ("assemblee".toList)).mentions_assemblee = true ∧
    (analyze_bio_keywords ("assemblee".toList)).mentions_depute = true :=
  ⟨by decide, claim_C8 ("assemblee".toList) (by decide)⟩

/-- A scalar value below the surrogate range round-trips through
`Char.ofNat`. -/
lemma toNat_ofNat_lt {n : ℕ} (h : n < 55296) : (Char.ofNat n).toNat = n := by
  have hv : n.isValidChar := Or.inl h
  rw [Char.ofNat, dif_pos hv]
  simp [Char.ofNatAux, Char.toNat, UInt32.toNat, BitVec.toNat_ofNatLt]

/-- Lowercasing keeps an ASCII character ASCII. -/
lemma lower_ascii_toNat_lt (c : Char) (h : c.toNat < 128) : (lower_ascii c).toNat < 128 := by
  unfold lower_ascii
  split_ifs with h1
  · rw [toNat_ofNat_lt (by omega)]
    omega
  · exact h

/-- A lowercased character is never an uppercase ASCII letter. -/
lemma lower_ascii_not_upper (c : Char) :
    ¬ (65 ≤ (lower_ascii c).toNat ∧ (lower_ascii c).toNat ≤ 90) := by
  unfold lower_ascii
  split_ifs with h1
  · rw [toNat_ofNat_lt (by omega)]
    omega
  · exact h1

/-- Lowercasing fixes a character that is not an uppercase ASCII letter. -/
lemma lower_ascii_fixed (c : Char) (h : ¬ (65 ≤ c.toNat ∧ c.toNat ≤ 90)) :
    lower_ascii c = c := if_neg h

/-- ASCII characters have no NFKD decomposition. -/
lemma nfkd_char_ascii (c : Char) (h : c.toNat < 128) : nfkd_char c = [c] := if_pos h

/-- NFKD fixes a string of ASCII characters. -/
lemma nfkd_eq_self (l : List Char) (h : ∀ c ∈ l, c.toNat < 128) : nfkd l = l := by
  unfold nfkd
  induction l with
  | nil => rfl
  | cons a t ih =>
    rw [List.flatMap_cons, nfkd_char_ascii a (h a (List.mem_cons_self a t)),
      ih (fun c hc => h c (List.mem_cons_of_mem a hc))]
    rfl

/-- Stripping only removes characters. -/
lemma mem_strip_chars {c : Char} {l : List Char} (h : c ∈ strip_chars l) : c ∈ l := by
  unfold strip_chars at h
  exact (List.dropWhile_suffix _).sublist.subset
    ((List.rdropWhile_prefix _ _).sublist.subset h)

/-- Stripping is idempotent. -/
lemma strip_chars_idem (l : List Char) : strip_chars (strip_chars l) = strip_chars l := by
  unfold strip_chars
  have h1 : List.dropWhile is_python_space
      ((l.dropWhile is_python_space).rdropWhile is_python_space) =
      (l.dropWhile is_python_space).rdropWhile is_python_space := by
    rw [List.dropWhile_eq_self_iff]
    intro hl
    have hpre := List.rdropWhile_prefix is_python_space (l.dropWhile is_python_space)
    have hlen : 0 < (l.dropWhile is_python_space).length := lt_of_lt_of_le hl hpre.length_le
    have hget := List.IsPrefix.getElem hpre hl
    have hnot := List.dropWhile_get_zero_not is_python_space l hlen
    simp only [List.get_eq_getElem] at hnot ⊢
    rw [← hget] at hnot
    exact hnot
  rw [h1, List.rdropWhile_idempotent]

/-- Every character of a normalized string is ASCII. -/
lemma normalize_mem_ascii (s : List Char) : ∀ c ∈ normalize_string s, c.toNat < 128 := by
  intro c hc
  unfold normalize_string at hc
  obtain ⟨d, hd, rfl⟩ := List.mem_map.mp (mem_strip_chars hc)
  exact lower_ascii_toNat_lt d (by simpa using (List.mem_filter.mp hd).2)

/-- No character of a normalized string is an uppercase ASCII letter. -/
lemma normalize_mem_not_upper (s : List Char) :
    ∀ c ∈ normalize_string s, ¬ (65 ≤ c.toNat ∧ c.toNat ≤ 90) := by
  intro c hc
  unfold normalize_string at hc
  obtain ⟨d, -, rfl⟩ := List.mem_map.mp (mem_strip_chars hc)
  exact lower_ascii_not_upper d

/-- A normalized string is already stripped. -/
lemma strip_chars_normalize (s : List Char) :
    strip_chars (normalize_string s) = normalize_string s := by
  unfold normalize_string
  exact strip_chars_idem _

/-- C9: the text normalizer is idempotent, and its output is lowercase
(no uppercase ASCII letters), free of diacritics (only ASCII code points
survive the accent-stripping filter), and whitespace-trimmed. -/
theorem claim_C9 (s : List Char) :
    normalize_string (normalize_string s) = normalize_string s ∧
    (∀ c ∈ normalize_string s, c.toNat < 128) ∧
    (∀ c ∈ normalize_string s, ¬ (65 ≤ c.toNat ∧ c.toNat ≤ 90)) ∧
    strip_chars (normalize_string s) = normalize_string s := by
  have hascii := normalize_mem_ascii s
  have hupper := normalize_mem_not_upper s
  refine ⟨?_, hascii, hupper, strip_chars_normalize s⟩
  show strip_chars ((ascii_ignore (nfkd (normalize_string s))).map lower_ascii) =
    normalize_string s
  rw [nfkd_eq_self _ hascii]
  have hfilter : ascii_ignore (normalize_string s) = normalize_string s := by
    unfold ascii_ignore
    rw [List.filter_eq_self]
    intro c hc
    simpa using hascii c hc
  rw [hfilter]
  have hmap : (normalize_string s).map lower_ascii = normalize_string s := by
    rw [List.map_congr_left (fun c hc => lower_ascii_fixed c (hupper c hc))]
    exact List.map_id _
  rw [hmap]
  exact strip_chars_normalize s

end TikTokDeputy
